import Mathlib

/-!
Verification of the bit-vector literal codec of `z3/bv.go` (package `z3`):
the methods `BV.AsBigSigned`, `BV.AsBigUnsigned`, `BV.AsInt64` and the
sort-width behaviour of the `Extract` and `Concat` operators.

Expressions are modelled by which data the codec actually consumes: whether
the expression is a numeral literal, its sort width (`expr.Sort().BVSize()`),
and, for a literal, the backing unsigned numeral.
-/

namespace GoZ3

/-- A bit-vector expression as seen by the literal codec: either a numeral
literal carrying its sort width and unsigned numeral, or a non-literal
(free variable or compound expression) of a given sort width. -/
inductive BVExpr where
  | lit (width : Nat) (val : Nat)
  | nonlit (width : Nat)
deriving DecidableEq

/-- `expr.Sort().BVSize()`: the width in bits of the expression's sort. -/
def BVExpr.sortWidth : BVExpr → Nat
  | .lit w _ => w
  | .nonlit w => w

/-- Solver invariant (spec §3, Numeral): the backing numeral of a literal
satisfies `0 <= numeral < 2^width`. -/
def BVExpr.WF : BVExpr → Prop
  | .lit w v => v < 2 ^ w
  | .nonlit _ => True

/-- Modelled from the spec: `expr.asBigInt`, the primitive behind
`AsBigUnsigned` (its Go code is outside `bv.go`; spec §6
`isNumeralLiteral` / `getNumeralAsBigInt`). Returns the backing unsigned
numeral when the expression is a literal, and `(none, false)` otherwise,
never failing. -/
def BVExpr.asBigInt : BVExpr → Option Nat × Bool
  | .lit _ v => (some v, true)
  | .nonlit _ => (none, false)

/-- Modelled from the spec: `expr.asUint64`, the solver's native unsigned
64-bit numeral query (spec §6 `getNumeralAsUint64`); its Go code is outside
`bv.go`. Succeeds (`ok`) exactly when the literal's numeral fits in 64 bits. -/
def BVExpr.asUint64 : BVExpr → Nat × Bool × Bool
  | .lit _ v => if v < 2 ^ 64 then (v, true, true) else (0, true, false)
  | .nonlit _ => (0, false, false)

/-- `BV.AsBigUnsigned` (bv.go:67-69). -/
def BVExpr.AsBigUnsigned (expr : BVExpr) : Option Nat × Bool :=
  expr.asBigInt

/-- `BV.AsBigSigned` (bv.go:52-64): unsigned decode, then subtract `2^size`
when bit `size-1` of the numeral is set. -/
def BVExpr.AsBigSigned (expr : BVExpr) : Option Int × Bool :=
  match expr.AsBigUnsigned with
  | (none, isLiteral) => (none, isLiteral)
  | (some v, _) =>
    let size := expr.sortWidth
    if v.testBit (size - 1) then (some ((v : Int) - 2 ^ size), true)
    else (some (v : Int), true)

/-- Reinterpretation of an unsigned 64-bit pattern as a two's complement
`int64` (Go's `int64(uval)` conversion). -/
def toInt64 (u : Nat) : Int :=
  if u % 2 ^ 64 < 2 ^ 63 then ((u % 2 ^ 64 : Nat) : Int)
  else ((u % 2 ^ 64 : Nat) : Int) - 2 ^ 64

/-- Arithmetic right shift of an `int64` by `k` bits (Go's `>>` on a signed
operand): floor division by `2^k`. -/
def sar64 (x : Int) (k : Nat) : Int := Int.fdiv x (2 ^ k)

/-- `BV.AsInt64` (bv.go:75-105). The sign-extension branch models Go's
`int64(uval) << uint(64-size) >> uint(64-size)`: the left shift keeps the low
64 bits of the pattern, the right shift is arithmetic. -/
def BVExpr.AsInt64 (expr : BVExpr) : Int × Bool × Bool :=
  match expr.asUint64 with
  | (uval, isLiteral, ok) =>
    if !isLiteral then (0, isLiteral, ok)
    else
      let size := expr.sortWidth
      if ok ∧ size < 64 then
        (sar64 (toInt64 (uval * 2 ^ (64 - size))) (64 - size), true, true)
      else if ok ∧ uval < 2 ^ 63 then
        ((uval : Int), true, true)
      else
        match expr.AsBigSigned with
        | (some bigVal, _) =>
          if bigVal > 2 ^ 63 - 1 then (0, true, false)
          else if bigVal < -(2 ^ 63) then (0, true, false)
          else (bigVal, true, true)
        | (none, _) => (0, true, false)

/-- Modelled from the spec: constructing a `w`-bit literal with value `v`
(spec §8 round-trip; literal construction is outside `bv.go`). Bit-vector
sorts have domains of size `2^w` with modular semantics, so the stored
numeral is `v mod 2^w`. -/
def mkLit (w v : Nat) : BVExpr := .lit w (v % 2 ^ w)

/-- Modelled from the spec: the `Extract` operator (bv.go:266-269 wraps the
solver-side `Z3_mk_extract`; only the result sort is modelled here). It
yields bits `[high, low]` inclusive, a sort of width `high - low + 1`. -/
def Extract (l : BVExpr) (high low : Nat) : BVExpr :=
  .nonlit (high - low + 1)

/-- Modelled from the spec: the `Concat` operator (bv.go:259-264 wraps the
solver-side `Z3_mk_concat`; only the result sort is modelled here). The
result width is the sum of the operand widths. -/
def Concat (l r : BVExpr) : BVExpr :=
  .nonlit (l.sortWidth + r.sortWidth)

/-- The spec's formula for the two's complement reading of an unsigned
`w`-bit numeral (spec §4.1 `DecodeSignedBig`): subtract `2^w` exactly when
the most significant bit is set. Stated from the spec's words, to be
compared against the code's decoders. -/
def signedDecodeSpec (w v : Nat) : Int :=
  if v.testBit (w - 1) then (v : Int) - 2 ^ w else (v : Int)

/- ### Helper lemmas -/

theorem asBigSigned_lit_eq (w v : Nat) :
    (BVExpr.lit w v).AsBigSigned = (some (signedDecodeSpec w v), true) := by
  simp only [BVExpr.AsBigSigned, BVExpr.AsBigUnsigned, BVExpr.asBigInt,
    BVExpr.sortWidth, signedDecodeSpec]
  split <;> simp_all

theorem testBit_msb (k v : Nat) (hv : v < 2 ^ (k + 1)) :
    v.testBit k = decide (2 ^ k ≤ v) := by
  rw [Nat.testBit_to_div_mod]
  have hpos : 0 < 2 ^ k := Nat.two_pow_pos k
  have h2 : v / 2 ^ k < 2 := by
    apply Nat.div_lt_of_lt_mul
    calc v < 2 ^ (k + 1) := hv
    _ = 2 ^ k * 2 := by ring
  rcases Nat.lt_or_ge v (2 ^ k) with h | h
  · have h0 : v / 2 ^ k = 0 := Nat.div_eq_of_lt h
    simp [h0, Nat.not_le.mpr h]
  · have h1 : 1 ≤ v / 2 ^ k := (Nat.one_le_div_iff hpos).mpr h
    have h0 : v / 2 ^ k = 1 := by omega
    simp [h0, h]

theorem sar_signext (w v : Nat) (hw1 : 1 ≤ w) (hw : w < 64) (hv : v < 2 ^ w) :
    sar64 (toInt64 (v * 2 ^ (64 - w))) (64 - w) = signedDecodeSpec w v := by
  obtain ⟨k, rfl⟩ : ∃ k, w = k + 1 := ⟨w - 1, by omega⟩
  have hk : 64 - (k + 1) = 63 - k := by omega
  have hmul64 : 2 ^ (k + 1) * 2 ^ (63 - k) = 2 ^ 64 := by
    rw [← pow_add]; congr 1; omega
  have hmul63 : 2 ^ k * 2 ^ (63 - k) = 2 ^ 63 := by
    rw [← pow_add]; congr 1; omega
  have hlt64 : v * 2 ^ (63 - k) < 2 ^ 64 := by
    calc v * 2 ^ (63 - k) < 2 ^ (k + 1) * 2 ^ (63 - k) :=
      (Nat.mul_lt_mul_right (Nat.two_pow_pos _)).mpr hv
    _ = 2 ^ 64 := hmul64
  have hmod : v * 2 ^ (63 - k) % 2 ^ 64 = v * 2 ^ (63 - k) :=
    Nat.mod_eq_of_lt hlt64
  have hbit := testBit_msb k v hv
  have hne : ((2 : Int) ^ (63 - k)) ≠ 0 := by positivity
  rw [hk]
  rcases Nat.lt_or_ge v (2 ^ k) with hsmall | hbig
  · have hplt : v * 2 ^ (63 - k) < 2 ^ 63 := by
      calc v * 2 ^ (63 - k) < 2 ^ k * 2 ^ (63 - k) :=
        (Nat.mul_lt_mul_right (Nat.two_pow_pos _)).mpr hsmall
      _ = 2 ^ 63 := hmul63
    have hspec : signedDecodeSpec (k + 1) v = (v : Int) := by
      rw [signedDecodeSpec]
      simp only [Nat.add_sub_cancel, hbit]
      simp [Nat.not_le.mpr hsmall]
    rw [hspec, toInt64, hmod, if_pos hplt, sar64]
    push_cast
    exact Int.mul_fdiv_cancel _ hne
  · have hpge : 2 ^ 63 ≤ v * 2 ^ (63 - k) := by
      calc (2 : Nat) ^ 63 = 2 ^ k * 2 ^ (63 - k) := hmul63.symm
      _ ≤ v * 2 ^ (63 - k) := Nat.mul_le_mul_right _ hbig
    have hspec : signedDecodeSpec (k + 1) v = (v : Int) - 2 ^ (k + 1) := by
      rw [signedDecodeSpec]
      simp only [Nat.add_sub_cancel, hbit]
      simp [hbig]
    have h1 : ((2 : Int) ^ (k + 1)) * 2 ^ (63 - k) = 2 ^ 64 := by
      exact_mod_cast hmul64
    have hnum : ((v * 2 ^ (63 - k) : Nat) : Int) - 2 ^ 64
        = ((v : Int) - 2 ^ (k + 1)) * 2 ^ (63 - k) := by
      push_cast
      rw [sub_mul, h1]
      norm_num
    rw [hspec, toInt64, hmod, if_neg (Nat.not_lt.mpr hpge), sar64, hnum]
    exact Int.mul_fdiv_cancel _ hne

theorem asInt64_lit_narrow (w v : Nat) (hw : w < 64) (h64 : v < 2 ^ 64) :
    (BVExpr.lit w v).AsInt64 =
      (sar64 (toInt64 (v * 2 ^ (64 - w))) (64 - w), true, true) := by
  have h64n : v < 18446744073709551616 := by norm_num at h64 ⊢; exact h64
  simp [BVExpr.AsInt64, BVExpr.asUint64, BVExpr.sortWidth, h64n, hw]

theorem asInt64_lit_fast (w v : Nat) (hw : ¬ w < 64) (hv63 : v < 2 ^ 63) :
    (BVExpr.lit w v).AsInt64 = ((v : Int), true, true) := by
  have hv63n : v < 9223372036854775808 := by norm_num at hv63 ⊢; exact hv63
  have h64n : v < 18446744073709551616 := by omega
  simp [BVExpr.AsInt64, BVExpr.asUint64, BVExpr.sortWidth, h64n, hw, hv63n]

theorem asInt64_lit_slow (w v : Nat) (hw : ¬ w < 64) (hv63 : ¬ v < 2 ^ 63)
    (h64 : v < 2 ^ 64) :
    (BVExpr.lit w v).AsInt64 =
      if signedDecodeSpec w v > 2 ^ 63 - 1 then (0, true, false)
      else if signedDecodeSpec w v < -(2 ^ 63) then (0, true, false)
      else (signedDecodeSpec w v, true, true) := by
  have hv63n : ¬ v < 9223372036854775808 := by norm_num at hv63 ⊢; exact hv63
  have h64n : v < 18446744073709551616 := by norm_num at h64 ⊢; exact h64
  have hrw := asBigSigned_lit_eq w v
  simp [BVExpr.AsInt64, BVExpr.asUint64, BVExpr.sortWidth, h64n, hw, hv63n, hrw]

theorem asInt64_lit_nofit (w v : Nat) (h64 : ¬ v < 2 ^ 64) :
    (BVExpr.lit w v).AsInt64 =
      if signedDecodeSpec w v > 2 ^ 63 - 1 then (0, true, false)
      else if signedDecodeSpec w v < -(2 ^ 63) then (0, true, false)
      else (signedDecodeSpec w v, true, true) := by
  have h64n : ¬ v < 18446744073709551616 := by norm_num at h64 ⊢; exact h64
  have hrw := asBigSigned_lit_eq w v
  simp [BVExpr.AsInt64, BVExpr.asUint64, BVExpr.sortWidth, h64n, hrw]

/- ### Claim theorems -/

/-- C1: for a bit-vector literal of width `w` with unsigned numeral
`v < 2^w`, the signed big-integer decode `AsBigSigned` returns `v` when bit
`w-1` of `v` is clear and `v - 2^w` when it is set; in particular it returns
`-56` for `w = 8, v = 200`, and `0` or `-1` for `w = 1`. -/
theorem AsBigSigned_lit (w v : Nat) (hv : v < 2 ^ w) :
    (BVExpr.lit w v).AsBigSigned =
      (some (if v.testBit (w - 1) then (v : Int) - 2 ^ w else (v : Int)), true) ∧
    (BVExpr.lit 8 200).AsBigSigned = (some (-56), true) ∧
    (BVExpr.lit 1 0).AsBigSigned = (some 0, true) ∧
    (BVExpr.lit 1 1).AsBigSigned = (some (-1), true) := by
  refine ⟨?_, by decide, by decide, by decide⟩
  rw [asBigSigned_lit_eq, signedDecodeSpec]

/-- C1 witness: the theorem instantiated at `w = 8`, `v = 200`. -/
theorem AsBigSigned_lit_witness :
    (BVExpr.lit 8 200).AsBigSigned =
      (some (if (200 : Nat).testBit 7 then (200 : Int) - 2 ^ 8 else (200 : Int)), true) :=
  (AsBigSigned_lit 8 200 (by decide)).1

/-- C2 counterexample: the claim states that `AsInt64` on a 64-bit literal
with pattern `0x8000000000000000` returns `ok = false`; the code returns
`ok = true` there. -/
theorem AsInt64_min64_counterexample :
    ((BVExpr.lit 64 (2 ^ 63)).AsInt64).2.2 ≠ false := by decide

/-- C2 amended: `AsInt64` on a 64-bit literal with pattern
`0x8000000000000000` returns `(-2^63, true, true)`: the value is the 64-bit
signed minimum, the boundary of the signed range is inclusive, so it fits. -/
theorem AsInt64_min64_boundary :
    (BVExpr.lit 64 (2 ^ 63)).AsInt64 = (-(2 ^ 63), true, true) := by decide

/-- C5: on a non-literal expression, both big-integer decoders return
`isLiteral = false` and no value; being total Lean functions, they cannot
raise an error. -/
theorem AsBig_nonlit (w : Nat) :
    (BVExpr.nonlit w).AsBigUnsigned = (none, false) ∧
    (BVExpr.nonlit w).AsBigSigned = (none, false) :=
  ⟨rfl, rfl⟩

/-- C6: the value returned by the unsigned decode of a literal satisfying
the solver's numeral invariant lies in `[0, 2^width)` (the lower bound is
inherent: the value is a natural number). -/
theorem AsBigUnsigned_range (e : BVExpr) (hwf : e.WF) (v : Nat)
    (hv : e.AsBigUnsigned = (some v, true)) : v < 2 ^ e.sortWidth := by
  cases e with
  | lit w u =>
    simp only [BVExpr.AsBigUnsigned, BVExpr.asBigInt, Prod.mk.injEq,
      Option.some.injEq] at hv
    rw [BVExpr.sortWidth, ← hv.1]
    exact hwf
  | nonlit w =>
    simp [BVExpr.AsBigUnsigned, BVExpr.asBigInt] at hv

/-- C6 witness: the theorem instantiated at the 4-bit literal 9. -/
theorem AsBigUnsigned_range_witness : 9 < 2 ^ (BVExpr.lit 4 9).sortWidth :=
  AsBigUnsigned_range (BVExpr.lit 4 9) (by decide : (9 : Nat) < 2 ^ 4) 9 rfl

/-- C7: for every width `w ∈ [1, 128]` and value `v ∈ [0, 2^w)`,
constructing the `w`-bit literal for `v` and decoding it unsigned returns
exactly `v`, and repeated decodes (unsigned and signed) agree with each
other. -/
theorem mkLit_roundtrip (w v : Nat) (hw1 : 1 ≤ w) (hw2 : w ≤ 128)
    (hv : v < 2 ^ w) :
    (mkLit w v).AsBigUnsigned = (some v, true) ∧
    (mkLit w v).AsBigUnsigned = (mkLit w v).AsBigUnsigned ∧
    (mkLit w v).AsBigSigned = (mkLit w v).AsBigSigned := by
  refine ⟨?_, rfl, rfl⟩
  simp [mkLit, BVExpr.AsBigUnsigned, BVExpr.asBigInt, Nat.mod_eq_of_lt hv]

/-- C7 witness: the theorem instantiated at `w = 8`, `v = 200`. -/
theorem mkLit_roundtrip_witness : (mkLit 8 200).AsBigUnsigned = (some 200, true) :=
  (mkLit_roundtrip 8 200 (by decide) (by decide) (by decide)).1

/-- C8: `Extract` with `high ≥ low ≥ 0` yields a sort of width
`high - low + 1` (an 8-bit sort for `high = 7, low = 0` on a 16-bit
expression), and `Concat` of an `m`-bit and an `n`-bit expression yields an
`(m+n)`-bit sort. -/
theorem extract_concat_sortWidth (e l r : BVExpr) (high low : Nat)
    (h : low ≤ high) :
    (Extract e high low).sortWidth = high - low + 1 ∧
    (Concat l r).sortWidth = l.sortWidth + r.sortWidth ∧
    (Extract (BVExpr.nonlit 16) 7 0).sortWidth = 8 :=
  ⟨rfl, rfl, rfl⟩

/-- C8 witness: the theorem instantiated at `high = 7`, `low = 0` on a
16-bit expression and two 16-bit operands. -/
theorem extract_concat_sortWidth_witness :
    (Extract (BVExpr.nonlit 16) 7 0).sortWidth = 7 - 0 + 1 :=
  (extract_concat_sortWidth (BVExpr.nonlit 16) (BVExpr.nonlit 16)
    (BVExpr.nonlit 16) 7 0 (by decide)).1

/-- C3: on a literal of width `w ≥ 64`, when the unsigned 64-bit numeral
query succeeds with a value below `2^63`, `AsInt64` returns it directly with
`ok = true`; otherwise it falls back to the exact big-number signed decode
and returns `ok = false` exactly when that value falls outside
`[-2^63, 2^63 - 1]`, and the narrowed value with `ok = true` otherwise. -/
theorem AsInt64_wide (w v : Nat) (hw : 64 ≤ w) (hv : v < 2 ^ w) :
    (v < 2 ^ 63 → (BVExpr.lit w v).AsInt64 = ((v : Int), true, true)) ∧
    (2 ^ 63 ≤ v →
      (BVExpr.lit w v).AsInt64 =
        if signedDecodeSpec w v < -(2 ^ 63) ∨ 2 ^ 63 - 1 < signedDecodeSpec w v
        then (0, true, false) else (signedDecodeSpec w v, true, true)) := by
  have hnw : ¬ (w < 64) := by omega
  constructor
  · intro hv63
    exact asInt64_lit_fast w v hnw hv63
  · intro hge
    have hnv63 : ¬ (v < 2 ^ 63) := Nat.not_lt.mpr hge
    have key : (BVExpr.lit w v).AsInt64 =
        if signedDecodeSpec w v > 2 ^ 63 - 1 then (0, true, false)
        else if signedDecodeSpec w v < -(2 ^ 63) then (0, true, false)
        else (signedDecodeSpec w v, true, true) := by
      by_cases h64 : v < 2 ^ 64
      · exact asInt64_lit_slow w v hnw hnv63 h64
      · exact asInt64_lit_nofit w v h64
    rw [key]
    by_cases h1 : signedDecodeSpec w v > 2 ^ 63 - 1
    · rw [if_pos h1, if_pos (Or.inr h1)]
    · rw [if_neg h1]
      by_cases h2 : signedDecodeSpec w v < -(2 ^ 63)
      · rw [if_pos h2, if_pos (Or.inl h2)]
      · rw [if_neg h2, if_neg (fun hor => hor.elim h2 h1)]

/-- C3 witness: the theorem instantiated at `w = 64`, once with a value on
the fast path and once with one on the big-number fallback path. -/
theorem AsInt64_wide_witness :
    (BVExpr.lit 64 5).AsInt64 = ((5 : Int), true, true) :=
  (AsInt64_wide 64 5 (by decide) (by decide)).1 (by decide)

/-- C4: on a literal of width `w < 64` (whose unsigned 64-bit query always
succeeds), `AsInt64` returns, with `isLiteral = ok = true`, the value
obtained by shifting the pattern left by `64 - w` bits and arithmetically
shifting back, and that value equals the exact two's complement value
`AsBigSigned` yields; in particular the 32-bit pattern `0xFFFFFFFF` decodes
to `(-1, true, true)`. -/
theorem AsInt64_narrow (w v : Nat) (hw1 : 1 ≤ w) (hw : w < 64) (hv : v < 2 ^ w) :
    (BVExpr.lit w v).AsInt64 =
      (sar64 (toInt64 (v * 2 ^ (64 - w))) (64 - w), true, true) ∧
    sar64 (toInt64 (v * 2 ^ (64 - w))) (64 - w) = signedDecodeSpec w v ∧
    (BVExpr.lit w v).AsBigSigned = (some (signedDecodeSpec w v), true) ∧
    (BVExpr.lit 32 4294967295).AsInt64 = (-1, true, true) := by
  have h64 : v < 2 ^ 64 :=
    lt_of_lt_of_le hv (Nat.pow_le_pow_right (by norm_num) (by omega))
  exact ⟨asInt64_lit_narrow w v hw h64, sar_signext w v hw1 hw hv,
    asBigSigned_lit_eq w v, by decide⟩

/-- C4 witness: the theorem instantiated at `w = 32`, `v = 0xFFFFFFFF`. -/
theorem AsInt64_narrow_witness :
    (BVExpr.lit 32 4294967295).AsInt64 =
      (sar64 (toInt64 (4294967295 * 2 ^ (64 - 32))) (64 - 32), true, true) :=
  (AsInt64_narrow 32 4294967295 (by decide) (by decide) (by decide)).1

/-- C9: the value the signed decode `AsBigSigned` returns for a literal of
width `w` satisfying the solver's numeral invariant lies in the signed range
`[-2^(w-1), 2^(w-1) - 1]`. -/
theorem AsBigSigned_range (w v : Nat) (hw : 1 ≤ w) (hv : v < 2 ^ w) (s : Int)
    (hs : ((BVExpr.lit w v).AsBigSigned).1 = some s) :
    -(2 ^ (w - 1)) ≤ s ∧ s ≤ 2 ^ (w - 1) - 1 := by
  obtain ⟨k, rfl⟩ : ∃ k, w = k + 1 := ⟨w - 1, by omega⟩
  rw [asBigSigned_lit_eq] at hs
  simp only [Option.some.injEq] at hs
  rw [← hs, signedDecodeSpec]
  simp only [Nat.add_sub_cancel, testBit_msb k v hv]
  have hpow : (2 : Int) ^ (k + 1) = 2 * 2 ^ k := by ring
  have hpos : (0 : Int) < 2 ^ k := by positivity
  rcases Nat.lt_or_ge v (2 ^ k) with h | h
  · have hv1 : (v : Int) < 2 ^ k := by exact_mod_cast h
    have hv0 : (0 : Int) ≤ (v : Int) := Int.ofNat_nonneg v
    simp only [Nat.not_le.mpr h, decide_False, Bool.false_eq_true, if_false,
      Nat.add_sub_cancel]
    constructor <;> linarith
  · have hv1 : (2 : Int) ^ k ≤ (v : Int) := by exact_mod_cast h
    have hv2 : (v : Int) < 2 ^ (k + 1) := by exact_mod_cast hv
    simp only [h, decide_True, if_true]
    constructor <;> linarith

/-- C9 witness: the theorem instantiated at `w = 8`, `v = 200`, whose signed
decode is `-56`. -/
theorem AsBigSigned_range_witness :
    -(2 ^ ((8 : Nat) - 1)) ≤ (-56 : Int) ∧ (-56 : Int) ≤ 2 ^ ((8 : Nat) - 1) - 1 :=
  AsBigSigned_range 8 200 (by decide) (by decide) (-56) (by decide)

/-- C10: whenever `AsInt64` reports `isLiteral = false` or `ok = false`, the
`int64` value it returns is exactly `0`. -/
theorem AsInt64_zero_on_failure (e : BVExpr)
    (h : (e.AsInt64).2.1 = false ∨ (e.AsInt64).2.2 = false) :
    (e.AsInt64).1 = 0 := by
  cases e with
  | nonlit w => rfl
  | lit w v =>
    have hbig : ((BVExpr.lit w v).AsInt64 =
        if signedDecodeSpec w v > 2 ^ 63 - 1 then (0, true, false)
        else if signedDecodeSpec w v < -(2 ^ 63) then (0, true, false)
        else (signedDecodeSpec w v, true, true)) →
        ((BVExpr.lit w v).AsInt64).1 = 0 := by
      intro key
      rw [key] at h ⊢
      by_cases h1 : signedDecodeSpec w v > 2 ^ 63 - 1
      · rw [if_pos h1]
      · rw [if_neg h1] at h ⊢
        by_cases h2 : signedDecodeSpec w v < -(2 ^ 63)
        · rw [if_pos h2]
        · rw [if_neg h2] at h
          simp at h
    by_cases h64 : v < 2 ^ 64
    · by_cases hw : w < 64
      · rw [asInt64_lit_narrow w v hw h64] at h
        simp at h
      · by_cases hv63 : v < 2 ^ 63
        · rw [asInt64_lit_fast w v hw hv63] at h
          simp at h
        · exact hbig (asInt64_lit_slow w v hw hv63 h64)
    · exact hbig (asInt64_lit_nofit w v h64)

/-- C10 witness: the theorem instantiated at a non-literal 8-bit
expression, where `AsInt64` reports `isLiteral = false`. -/
theorem AsInt64_zero_on_failure_witness : ((BVExpr.nonlit 8).AsInt64).1 = 0 :=
  AsInt64_zero_on_failure (BVExpr.nonlit 8) (Or.inl rfl)

end GoZ3
